import Mathlib

/-!
Verification of the proof-chaining orchestrator scripts of the repository:
the argument assembler (scripts/data/format_assumevalid_args.py) and the
scheduler with its pipeline driver (scripts/data/prove_pow.py).

Python functions are shallowly embedded as Lean functions.  File-system
reads are made explicit as a store map from heights to proof token lists,
and the results of the three external toolchain invocations are passed in
as explicit data, since the spec treats the data generator, the serializer
and the external executables as opaque collaborators.  Heights and process
return codes are Python ints, embedded as Int; wall-clock durations are
embedded as rationals.
-/

/-- Result record of one external toolchain invocation, as built by
run_prover from the tuple returned by run: stage name, captured stdout,
cleaned stderr, process return code, wall-clock elapsed seconds and peak
resident memory in kbytes when the measurement was available.  Mirrors the
StepInfo dataclass of prove_pow.py (lines 25-32). -/
structure StepInfo where
  step : String
  stdout : String
  stderr : String
  returncode : Int
  elapsed : ℚ
  max_memory : Option Nat
deriving DecidableEq

/-- Tuple returned by the run helper of prove_pow.py, as a record:
(stdout, stderr, returncode, elapsed, max_memory). -/
structure RunResult where
  stdout : String
  stderr : String
  returncode : Int
  elapsed : ℚ
  max_memory : Option Nat
deriving DecidableEq

/-- Embeds the except subprocess.TimeoutExpired branch of run (prove_pow.py
lines 132-134).  The elapsed field is whatever time.time() - start_time
evaluates to at the moment the exception is caught, so the measured value
is a parameter here; the code stores that measurement, not the timeout. -/
def runTimeoutResult (timeout : ℚ) (elapsed : ℚ) : RunResult :=
  { stdout := ""
    stderr := "Process timed out after " ++ toString timeout ++ " seconds"
    returncode := -1
    elapsed := elapsed
    max_memory := none }

/-- Embeds generate_assumevalid_args of format_assumevalid_args.py (lines
22-43).  batchTokens stands for the token list returned by the opaque
serializer format_args_to_cairo_serde on the block-data file; proof stands
for the token list read by read_proof_file when a proof path was supplied,
and none when proof_path is None. -/
def generate_assumevalid_args (batchTokens : List String)
    (proof : Option (List String)) : List String :=
  match proof with
  | some proof_data => (batchTokens ++ ["0x0"]) ++ proof_data
  | none => batchTokens ++ ["0x1"]

/-- Modelled from the spec: ProofArtifactCodec.encode (spec section 4.1),
the optional-previous-proof convention.  If the artifact is absent it emits
the single absent tag token; if present it emits the present tag token
followed by every token of the artifact in original order.  The tag values
are those of the source ("0x0" marks a present proof, "0x1" its absence);
this definition is compared against the source's assembler below. -/
def encodeOptionalProofRef : Option (List String) → List String
  | none => ["0x1"]
  | some artifact => "0x0" :: artifact

/-- Embeds the control flow of run_prover (prove_pow.py lines 137-236).
The three parameters stand for the StepInfo records built from the three
run invocations (PIE, BOOTLOAD, PROVE); the returned list is steps_info:
the first stage is always recorded, each of the first two stages aborts the
rest of the pipeline when its return code is nonzero, and the third stage's
result is recorded unconditionally. -/
def run_prover (pieResult bootloadResult proveResult : StepInfo) :
    List StepInfo :=
  let steps1 := [pieResult]
  if pieResult.returncode ≠ 0 then steps1
  else
    let steps2 := steps1 ++ [bootloadResult]
    if bootloadResult.returncode ≠ 0 then steps2
    else steps2 ++ [proveResult]

/-- Modelled from the spec: the PipelineExecutor contract (spec section
4.4) for an arbitrary ordered stage sequence — execute stages strictly in
order, stop immediately after the first stage whose return code is nonzero,
and return the results gathered so far.  Stated over the per-stage results;
it is compared below with the source's three-stage run_prover. -/
def runOrderedStages : List StepInfo → List StepInfo
  | [] => []
  | s :: rest => if s.returncode ≠ 0 then [s] else s :: runOrderedStages rest

/-- Embeds total_elapsed = sum(step.elapsed for step in steps_info)
(prove_pow.py line 279). -/
def totalElapsed (steps_info : List StepInfo) : ℚ :=
  (steps_info.map StepInfo.elapsed).sum

/-- Embeds prove_pow.py lines 281-284: the comprehension keeping the known
max_memory values of the recorded stages, then max(candidates) if
candidates else None. -/
def maxMemoryAgg (steps_info : List StepInfo) : Option Nat :=
  (steps_info.filterMap StepInfo.max_memory).max?

/-- Iteration of a Python range with positive step: emits cur while
cur < stop, advancing by step.  The fuel argument bounds the recursion and
is chosen large enough at the call site. -/
def rangeUpGo (stop step : Int) : Nat → Int → List Int
  | 0, _ => []
  | fuel + 1, cur =>
    if cur < stop then cur :: rangeUpGo stop step fuel (cur + step) else []

/-- Iteration of a Python range with negative step: emits cur while
cur > stop, advancing by step. -/
def rangeDownGo (stop step : Int) : Nat → Int → List Int
  | 0, _ => []
  | fuel + 1, cur =>
    if stop < cur then cur :: rangeDownGo stop step fuel (cur + step) else []

/-- Embeds Python range(start, stop, step) over unbounded ints: step = 0
raises ValueError, a positive step counts up while below stop, a negative
step counts down while above stop. -/
def pyRange (start stop step : Int) : Except String (List Int) :=
  if step = 0 then Except.error "ValueError: range() arg 3 must not be zero"
  else if 0 < step then Except.ok (rangeUpGo stop step (stop - start).toNat start)
  else Except.ok (rangeDownGo stop step (start - stop).toNat start)

/-- Embeds the job loop of main (prove_pow.py lines 342-348) with
prove_batch abstracted as a success oracle per height.  The returned list
holds exactly the heights for which a job was started, in order; on the
first failed job the loop returns early, so the failing height is the last
started one. -/
def runJobs (success : Int → Bool) : List Int → List Int
  | [] => []
  | h :: rest => if success h then h :: runJobs success rest else [h]

/-- Embeds main (prove_pow.py lines 320-350): build
range(start, start + blocks, step) and process its heights sequentially,
stopping at the first failed job.  The error case is the ValueError raised
by the range constructor when step = 0; no other validation of start,
blocks or step is performed by the source. -/
def mainRun (success : Int → Bool) (start blocks step : Int) :
    Except String (List Int) :=
  match pyRange start (start + blocks) step with
  | Except.error e => Except.error e
  | Except.ok heights => Except.ok (runJobs success heights)

/-- Embeds the argument-assembly part of prove_batch (prove_pow.py lines
246-267): previous_proof_file is the proof-store entry for height when
height > 0 and None otherwise; opening a missing proof file raises
FileNotFoundError inside read_proof_file, which the surrounding try block
of prove_batch turns into a failed job. -/
def assembleArgs (store : Int → Option (List String))
    (batchTokens : List String) (height : Int) : Except String (List String) :=
  if height > 0 then
    match store height with
    | none => Except.error "FileNotFoundError"
    | some proof_data =>
      Except.ok (generate_assumevalid_args batchTokens (some proof_data))
  else Except.ok (generate_assumevalid_args batchTokens none)

/-- Environment of one prove_batch call: the proof files on disk keyed by
height (PROOF_DIR light_h.proof.json), the serializer output for the batch
file, and the results of the three external stages. -/
structure JobEnv where
  store : Int → Option (List String)
  batchTokens : List String
  pieResult : StepInfo
  bootloadResult : StepInfo
  proveResult : StepInfo

/-- Embeds prove_batch (prove_pow.py lines 239-317): assemble the arguments
(an exception yields False through the except block), run the pipeline, and
report success iff the last recorded stage returned 0.  An out-of-range
steps_info[-1] would raise IndexError, also caught by the except block,
hence the none branch returning false. -/
def prove_batch (env : JobEnv) (height _blocks : Int) : Bool :=
  match assembleArgs env.store env.batchTokens height with
  | Except.error _ => false
  | Except.ok _ =>
    match (run_prover env.pieResult env.bootloadResult env.proveResult).getLast? with
    | none => false
    | some last_step => last_step.returncode == 0

/-- Value of Python int on the digit string captured by the regex group. -/
def digitsVal (s : List Char) : Nat :=
  s.foldl (fun a c => a * 10 + (c.toNat - 48)) 0

/-- Embeds the anchored regex match of the pattern on prove_pow.py line 356
against a file name, followed by int(m.group(1)) on line 360: after the
literal prefix light_ the greedy digit group must be nonempty and must be
followed immediately by the literal .proof.json; re.match anchors only at
the start of the name, so trailing characters are allowed. -/
def proofFilePattern (name : String) : Option Nat :=
  let cs := name.toList
  if "light_".toList.isPrefixOf cs then
    let rest := cs.drop 6
    let digits := rest.takeWhile Char.isDigit
    if digits.isEmpty then none
    else if ".proof.json".toList.isPrefixOf (rest.drop digits.length) then
      some (digitsVal digits)
    else none
  else none

/-- Embeds the glob pattern light_*.proof.json applied to a file name of
the proof directory (prove_pow.py line 354). -/
def globLight (name : String) : Bool :=
  let cs := name.toList
  "light_".toList.isPrefixOf cs && ".proof.json".toList.isSuffixOf (cs.drop 6)

/-- Height assigned to a proof-directory file by the auto-detect scan: the
name must pass the glob filter and then match the height pattern. -/
def fileHeight (name : String) : Option Nat :=
  if globLight name then proofFilePattern name else none

/-- Fold step of auto_detect_start (prove_pow.py lines 357-362): on a regex
match keep the larger of the running maximum and the parsed height,
otherwise keep the running maximum. -/
def detectStep (max_height : Nat) (name : String) : Nat :=
  match proofFilePattern name with
  | some h => if max_height < h then h else max_height
  | none => max_height

/-- Embeds auto_detect_start (prove_pow.py lines 353-363) over the list of
file names present in the proof directory. -/
def auto_detect_start (files : List String) : Nat :=
  (files.filter globLight).foldl detectStep 0

/-!
Helper lemmas shared by the claim theorems.
-/

lemma runOrderedStages_all_ok (pre : List StepInfo)
    (hpre : ∀ s ∈ pre, s.returncode = 0) (rest : List StepInfo) :
    runOrderedStages (pre ++ rest) = pre ++ runOrderedStages rest := by
  induction pre with
  | nil => simp
  | cons s t ih =>
    have hs : s.returncode = 0 := hpre s (by simp)
    have ht : ∀ x ∈ t, x.returncode = 0 := fun x hx => hpre x (by simp [hx])
    simp [runOrderedStages, hs, ih ht]

lemma runOrderedStages_first_fail (pre : List StepInfo) (f : StepInfo)
    (post : List StepInfo) (hpre : ∀ s ∈ pre, s.returncode = 0)
    (hf : f.returncode ≠ 0) :
    runOrderedStages (pre ++ f :: post) = pre ++ [f] := by
  rw [runOrderedStages_all_ok pre hpre]
  simp [runOrderedStages, hf]

lemma run_prover_eq_runOrderedStages (a b c : StepInfo) :
    run_prover a b c = runOrderedStages [a, b, c] := by
  by_cases ha : a.returncode = 0 <;> by_cases hb : b.returncode = 0 <;>
    by_cases hc : c.returncode = 0 <;>
    simp [run_prover, runOrderedStages, ha, hb, hc]

/-- C1: for every block batch and optional prior proof, the assembled
arguments payload is the serialized batch tokens followed by the
optional-proof encoding: one absent tag token and nothing else when the
proof is absent, one present tag token followed by every proof token in
original order when it is present, the tag always preceding the payload. -/
theorem assumevalid_args_payload (batchTokens : List String)
    (proof : Option (List String)) :
    generate_assumevalid_args batchTokens proof =
        batchTokens ++ encodeOptionalProofRef proof ∧
    generate_assumevalid_args batchTokens none = batchTokens ++ ["0x1"] ∧
    ∀ proof_data, generate_assumevalid_args batchTokens (some proof_data) =
        batchTokens ++ "0x0" :: proof_data := by
  refine ⟨?_, ?_, ?_⟩
  · cases proof <;> simp [generate_assumevalid_args, encodeOptionalProofRef]
  · simp [generate_assumevalid_args]
  · intro proof_data; simp [generate_assumevalid_args]

/-- C10: run_prover always returns a non-empty step list (the first stage's
result is recorded before any early return), so inspecting the last element
of the returned list is well-defined for every job. -/
theorem run_prover_ne_nil (a b c : StepInfo) :
    run_prover a b c ≠ [] ∧
    ∃ last_step, (run_prover a b c).getLast? = some last_step := by
  constructor
  · by_cases ha : a.returncode = 0 <;> by_cases hb : b.returncode = 0 <;>
      simp [run_prover, ha, hb]
  · rcases List.exists_mem_of_ne_nil (run_prover a b c)
      (by by_cases ha : a.returncode = 0 <;> by_cases hb : b.returncode = 0 <;>
        simp [run_prover, ha, hb]) with ⟨x, -⟩
    exact Option.isSome_iff_exists.mp (List.getLast?_isSome.mpr
      (by by_cases ha : a.returncode = 0 <;> by_cases hb : b.returncode = 0 <;>
        simp [run_prover, ha, hb]))

/-- C4: in an ordered stage sequence where stage i is the first with a
nonzero return code, the pipeline returns exactly the results of stages 1
to i, with the failed stage last and no later stage's result present; the
source's three-stage run_prover is an instance, and with three stages where
the second fails the result has exactly two elements whose last has a
nonzero return code. -/
theorem pipeline_stops_at_first_failure (pre : List StepInfo) (f : StepInfo)
    (post : List StepInfo) (hpre : ∀ s ∈ pre, s.returncode = 0)
    (hf : f.returncode ≠ 0) :
    runOrderedStages (pre ++ f :: post) = pre ++ [f] ∧
    (runOrderedStages (pre ++ f :: post)).getLast? = some f ∧
    (∀ a b c, run_prover a b c = runOrderedStages [a, b, c]) ∧
    ∀ a b c : StepInfo, a.returncode = 0 → b.returncode ≠ 0 →
      run_prover a b c = [a, b] ∧ (run_prover a b c).length = 2 ∧
      ∃ last_step, (run_prover a b c).getLast? = some last_step ∧
        last_step.returncode ≠ 0 := by
  refine ⟨runOrderedStages_first_fail pre f post hpre hf, ?_, ?_, ?_⟩
  · rw [runOrderedStages_first_fail pre f post hpre hf]
    simp
  · exact run_prover_eq_runOrderedStages
  · intro a b c ha hb
    have h2 : run_prover a b c = [a, b] := by
      rw [run_prover_eq_runOrderedStages]
      have := runOrderedStages_first_fail [a] b [c]
        (by intro s hs; simp at hs; simpa [hs]) hb
      simpa using this
    refine ⟨h2, by simp [h2], b, by rw [h2]; simp, hb⟩

/-- C4 witness: a concrete three-stage run where the second stage fails. -/
theorem pipeline_stops_at_first_failure_witness :
    (∀ s ∈ [StepInfo.mk "PIE" "" "" 0 1 (some 5)], s.returncode = 0) ∧
    (StepInfo.mk "BOOTLOAD" "" "boom" 1 2 none).returncode ≠ 0 ∧
    (runOrderedStages [StepInfo.mk "PIE" "" "" 0 1 (some 5),
        StepInfo.mk "BOOTLOAD" "" "boom" 1 2 none,
        StepInfo.mk "PROVE" "" "" 0 3 (some 7)] =
      [StepInfo.mk "PIE" "" "" 0 1 (some 5),
        StepInfo.mk "BOOTLOAD" "" "boom" 1 2 none] ∧
     (runOrderedStages [StepInfo.mk "PIE" "" "" 0 1 (some 5),
        StepInfo.mk "BOOTLOAD" "" "boom" 1 2 none,
        StepInfo.mk "PROVE" "" "" 0 3 (some 7)]).getLast? =
      some (StepInfo.mk "BOOTLOAD" "" "boom" 1 2 none) ∧
     (∀ a b c, run_prover a b c = runOrderedStages [a, b, c]) ∧
     ∀ a b c : StepInfo, a.returncode = 0 → b.returncode ≠ 0 →
       run_prover a b c = [a, b] ∧ (run_prover a b c).length = 2 ∧
       ∃ last_step, (run_prover a b c).getLast? = some last_step ∧
         last_step.returncode ≠ 0) :=
  ⟨by decide, by decide,
    pipeline_stops_at_first_failure [StepInfo.mk "PIE" "" "" 0 1 (some 5)]
      (StepInfo.mk "BOOTLOAD" "" "boom" 1 2 none)
      [StepInfo.mk "PROVE" "" "" 0 3 (some 7)] (by decide) (by decide)⟩

/-- C5 counterexample: the claim states that on timeout the recorded
elapsed equals the timeout value; the source records the measured
wall-clock time instead.  With a timeout of 10 seconds and a measured
elapsed of 11 seconds (a possible execution, since the measurement is
taken after the timeout fired), the result's elapsed is 11, not 10. -/
theorem run_timeout_elapsed_counterexample :
    (10 : ℚ) ≤ 11 ∧ (runTimeoutResult 10 11).elapsed = 11 ∧
    (runTimeoutResult 10 11).elapsed ≠ 10 := by
  refine ⟨by norm_num, rfl, ?_⟩
  simp [runTimeoutResult]

/-- C5 amended: when a stage's external process exceeds its timeout, the
step runner's result has return code -1 (a negative sentinel, distinct
from every nonnegative real process exit code), elapsed equal to the
measured wall-clock time since the stage started, peak memory unknown, and
stderr set to a timeout message. -/
theorem run_timeout_result_fields (timeout elapsed : ℚ) :
    runTimeoutResult timeout elapsed =
      { stdout := ""
        stderr := "Process timed out after " ++ toString timeout ++ " seconds"
        returncode := -1
        elapsed := elapsed
        max_memory := none } ∧
    (runTimeoutResult timeout elapsed).returncode = -1 ∧
    (runTimeoutResult timeout elapsed).returncode < 0 ∧
    (runTimeoutResult timeout elapsed).elapsed = elapsed ∧
    (runTimeoutResult timeout elapsed).max_memory = none := by
  refine ⟨rfl, rfl, ?_, rfl, rfl⟩
  simp [runTimeoutResult]

lemma rangeUpGo_lower_bound (stop step : Int) (hstep : 0 < step) :
    ∀ (fuel : Nat) (cur h : Int), h ∈ rangeUpGo stop step fuel cur → cur ≤ h := by
  intro fuel
  induction fuel with
  | zero => intro cur h hh; simp [rangeUpGo] at hh
  | succ f ih =>
    intro cur h hh
    simp only [rangeUpGo] at hh
    split at hh
    · rcases List.mem_cons.mp hh with rfl | hmem
      · exact le_refl h
      · have := ih (cur + step) h hmem
        omega
    · simp at hh

lemma rangeUpGo_mem_iff (stop step : Int) (hstep : 0 < step) :
    ∀ (fuel : Nat) (cur : Int), stop - cur ≤ (fuel : Int) → ∀ h : Int,
      (h ∈ rangeUpGo stop step fuel cur ↔
        (∃ k : Nat, h = cur + (k : Int) * step) ∧ h < stop) := by
  intro fuel
  induction fuel with
  | zero =>
    intro cur hfuel h
    simp only [rangeUpGo, List.not_mem_nil, false_iff, not_and]
    rintro ⟨k, rfl⟩
    have hk : (0 : Int) ≤ (k : Int) * step :=
      mul_nonneg (Int.natCast_nonneg k) (le_of_lt hstep)
    simp only [Nat.cast_zero] at hfuel
    omega
  | succ f ih =>
    intro cur hfuel h
    have hfuel' : stop - (cur + step) ≤ (f : Int) := by
      push_cast at hfuel ⊢
      omega
    simp only [rangeUpGo]
    split
    · rename_i hcur
      rw [List.mem_cons, ih (cur + step) hfuel' h]
      constructor
      · rintro (rfl | ⟨⟨k, rfl⟩, hlt⟩)
        · exact ⟨⟨0, by push_cast; ring⟩, hcur⟩
        · exact ⟨⟨k + 1, by push_cast; ring⟩, hlt⟩
      · rintro ⟨⟨k, rfl⟩, hlt⟩
        cases k with
        | zero => left; push_cast; ring
        | succ j => right; exact ⟨⟨j, by push_cast; ring⟩, hlt⟩
    · rename_i hcur
      simp only [List.not_mem_nil, false_iff, not_and]
      rintro ⟨k, rfl⟩
      have hk : (0 : Int) ≤ (k : Int) * step :=
        mul_nonneg (Int.natCast_nonneg k) (le_of_lt hstep)
      omega

lemma rangeUpGo_pairwise (stop step : Int) (hstep : 0 < step) :
    ∀ (fuel : Nat) (cur : Int),
      List.Pairwise (· < ·) (rangeUpGo stop step fuel cur) := by
  intro fuel
  induction fuel with
  | zero => intro cur; simp [rangeUpGo]
  | succ f ih =>
    intro cur
    simp only [rangeUpGo]
    split
    · refine List.pairwise_cons.mpr ⟨?_, ih (cur + step)⟩
      intro h hmem
      have := rangeUpGo_lower_bound stop step hstep f (cur + step) h hmem
      omega
    · simp

lemma pyRange_pos (start stop step : Int) (hstep : 0 < step) :
    pyRange start stop step =
      Except.ok (rangeUpGo stop step (stop - start).toNat start) := by
  have h0 : ¬ step = 0 := by omega
  simp [pyRange, h0, hstep]

lemma runJobs_id_of_all_true (l : List Int) :
    runJobs (fun _ => true) l = l := by
  induction l with
  | nil => rfl
  | cons h t ih => simp [runJobs, ih]

lemma runJobs_subset (success : Int → Bool) (l : List Int) :
    ∀ x ∈ runJobs success l, x ∈ l := by
  induction l with
  | nil => simp [runJobs]
  | cons h t ih =>
    intro x hx
    simp only [runJobs] at hx
    split at hx
    · rcases List.mem_cons.mp hx with rfl | hx
      · simp
      · simp [ih x hx]
    · rw [List.mem_singleton] at hx
      subst hx
      simp

lemma runJobs_fail_is_last (success : Int → Bool) (l : List Int)
    (hsorted : List.Pairwise (· < ·) l) (H : Int)
    (hH : H ∈ runJobs success l) (hfail : success H = false) :
    ∀ x ∈ runJobs success l, x ≤ H := by
  induction l with
  | nil => simp [runJobs] at hH
  | cons h t ih =>
    rcases List.pairwise_cons.mp hsorted with ⟨hlt, htail⟩
    simp only [runJobs] at hH ⊢
    by_cases hsh : success h = true
    · simp only [hsh, if_true] at hH ⊢
      have hHne : H ≠ h := by
        rintro rfl; rw [hsh] at hfail; exact Bool.true_eq_false.mp hfail
      have hHt : H ∈ runJobs success t := by
        rcases List.mem_cons.mp hH with rfl | hmem
        · exact absurd rfl hHne
        · exact hmem
      intro x hx
      rcases List.mem_cons.mp hx with rfl | hxt
      · exact le_of_lt (hlt H (runJobs_subset success t H hHt))
      · exact ih htail hHt x hxt
    · have hsh' : success h = false := by
        cases hcase : success h
        · rfl
        · exact absurd hcase hsh
      simp [hsh'] at hH ⊢
      exact le_of_eq hH.symm

/-- C2: for all start, blocks and step with step positive, the scheduler's
main loop iterates exactly over the heights start + k * step that lie
strictly below start + blocks, in strictly increasing order with no height
repeated or skipped, and an all-successful run processes exactly those
heights. -/
theorem scheduler_visits_heights (start blocks step : Int) (hstep : 0 < step) :
    ∃ heights : List Int,
      pyRange start (start + blocks) step = Except.ok heights ∧
      (∀ h : Int, h ∈ heights ↔
        (∃ k : Nat, h = start + (k : Int) * step) ∧ h < start + blocks) ∧
      List.Pairwise (· < ·) heights ∧
      mainRun (fun _ => true) start blocks step = Except.ok heights := by
  refine ⟨rangeUpGo (start + blocks) step (start + blocks - start).toNat start,
    pyRange_pos start (start + blocks) step hstep, ?_, ?_, ?_⟩
  · intro h
    exact rangeUpGo_mem_iff (start + blocks) step hstep _ start
      (Int.self_le_toNat _) h
  · exact rangeUpGo_pairwise (start + blocks) step hstep _ start
  · rw [mainRun, pyRange_pos start (start + blocks) step hstep]
    exact congrArg Except.ok (runJobs_id_of_all_true _)

/-- C2 witness: the spec's example run, start 0, blocks 20, step 10. -/
theorem scheduler_visits_heights_witness :
    (0 : Int) < 10 ∧
    ∃ heights : List Int,
      pyRange 0 (0 + 20) 10 = Except.ok heights ∧
      (∀ h : Int, h ∈ heights ↔
        (∃ k : Nat, h = 0 + (k : Int) * 10) ∧ h < 0 + 20) ∧
      List.Pairwise (· < ·) heights ∧
      mainRun (fun _ => true) 0 20 10 = Except.ok heights :=
  ⟨by norm_num, scheduler_visits_heights 0 20 10 (by norm_num)⟩

/-- C3: within one run, if the job for height H was started and failed,
every started job of that run has height at most H: no job for any height
greater than H is ever started, the scheduler stops processing the
remaining heights. -/
theorem chain_break (success : Int → Bool) (start blocks step H K : Int)
    (started : List Int) (hstep : 0 < step)
    (hrun : mainRun success start blocks step = Except.ok started)
    (hH : H ∈ started) (hfail : success H = false) (hK : K ∈ started) :
    K ≤ H := by
  rw [mainRun, pyRange_pos start (start + blocks) step hstep] at hrun
  simp only [Except.ok.injEq] at hrun
  subst hrun
  exact runJobs_fail_is_last success _
    (rangeUpGo_pairwise (start + blocks) step hstep _ start) H hH hfail K hK

/-- C3 witness: a run over heights 0 and 10 whose job at height 10 fails;
every started height is at most 10. -/
theorem chain_break_witness :
    (0 : Int) < 10 ∧
    mainRun (fun h => decide (h < 10)) 0 20 10 = Except.ok [0, 10] ∧
    (10 : Int) ∈ [(0 : Int), 10] ∧
    (fun h => decide (h < (10 : Int))) 10 = false ∧
    (0 : Int) ∈ [(0 : Int), 10] ∧ (0 : Int) ≤ 10 :=
  ⟨by norm_num, by rfl, by decide, by decide, by decide,
    chain_break (fun h => decide (h < 10)) 0 20 10 10 0 [0, 10]
      (by norm_num) (by rfl) (by decide) (by decide) (by decide)⟩

/-- C6: when height is positive and the proof artifact for height is
missing from the proof store, argument assembly raises FileNotFoundError
(the missing-dependency error) and prove_batch reports the job as failed;
height 0 never requires a prior artifact — the decision is the explicit
height > 0 check, so at height 0 the assembly succeeds whatever the store
contains, without any file-existence probe. -/
theorem missing_prior_artifact_fails (env : JobEnv) (height blocks : Int)
    (hpos : 0 < height) (hmiss : env.store height = none) :
    assembleArgs env.store env.batchTokens height =
      Except.error "FileNotFoundError" ∧
    prove_batch env height blocks = false ∧
    ∀ (store : Int → Option (List String)) (batchTokens : List String),
      assembleArgs store batchTokens 0 =
        Except.ok (generate_assumevalid_args batchTokens none) := by
  have h1 : assembleArgs env.store env.batchTokens height =
      Except.error "FileNotFoundError" := by
    simp [assembleArgs, hpos, hmiss]
  refine ⟨h1, ?_, ?_⟩
  · simp [prove_batch, h1]
  · intro store batchTokens
    simp [assembleArgs]

/-- C6 witness: an empty store at height 1. -/
theorem missing_prior_artifact_fails_witness :
    (0 : Int) < 1 ∧
    (JobEnv.mk (fun _ => none) [] (StepInfo.mk "PIE" "" "" 0 0 none)
        (StepInfo.mk "BOOTLOAD" "" "" 0 0 none)
        (StepInfo.mk "PROVE" "" "" 0 0 none)).store 1 = none ∧
    (assembleArgs (JobEnv.mk (fun _ => none) [] (StepInfo.mk "PIE" "" "" 0 0 none)
        (StepInfo.mk "BOOTLOAD" "" "" 0 0 none)
        (StepInfo.mk "PROVE" "" "" 0 0 none)).store
      (JobEnv.mk (fun _ => none) [] (StepInfo.mk "PIE" "" "" 0 0 none)
        (StepInfo.mk "BOOTLOAD" "" "" 0 0 none)
        (StepInfo.mk "PROVE" "" "" 0 0 none)).batchTokens 1 =
        Except.error "FileNotFoundError" ∧
     prove_batch (JobEnv.mk (fun _ => none) [] (StepInfo.mk "PIE" "" "" 0 0 none)
        (StepInfo.mk "BOOTLOAD" "" "" 0 0 none)
        (StepInfo.mk "PROVE" "" "" 0 0 none)) 1 1 = false ∧
     ∀ (store : Int → Option (List String)) (batchTokens : List String),
       assembleArgs store batchTokens 0 =
         Except.ok (generate_assumevalid_args batchTokens none)) :=
  ⟨by decide, rfl,
    missing_prior_artifact_fails
      (JobEnv.mk (fun _ => none) [] (StepInfo.mk "PIE" "" "" 0 0 none)
        (StepInfo.mk "BOOTLOAD" "" "" 0 0 none)
        (StepInfo.mk "PROVE" "" "" 0 0 none)) 1 1 (by decide) rfl⟩

lemma mem_filterMap_three (a b c : StepInfo) (m : Nat) :
    m ∈ [a, b, c].filterMap StepInfo.max_memory ↔
      (a.max_memory = some m ∨ b.max_memory = some m ∨
        c.max_memory = some m) := by
  rw [List.mem_filterMap]
  constructor
  · rintro ⟨x, hx, hmm⟩
    have hx3 : x = a ∨ x = b ∨ x = c := by simpa using hx
    rcases hx3 with rfl | rfl | rfl
    · exact Or.inl hmm
    · exact Or.inr (Or.inl hmm)
    · exact Or.inr (Or.inr hmm)
  · rintro (h | h | h)
    · exact ⟨a, by simp, h⟩
    · exact ⟨b, by simp, h⟩
    · exact ⟨c, by simp, h⟩

/-- C7: for a fully successful pipeline run the aggregated job metrics are
the sum of elapsed over all three stages, and the peak memory is the
greatest of the known per-stage peak memories (stages whose measurement is
unknown are ignored); when every stage's measurement is unknown the
aggregate is unknown rather than an error. -/
theorem aggregate_metrics (pie bootload prove : StepInfo)
    (h1 : pie.returncode = 0) (h2 : bootload.returncode = 0)
    (h3 : prove.returncode = 0) :
    run_prover pie bootload prove = [pie, bootload, prove] ∧
    totalElapsed (run_prover pie bootload prove) =
      pie.elapsed + bootload.elapsed + prove.elapsed ∧
    (∀ m : Nat, maxMemoryAgg (run_prover pie bootload prove) = some m ↔
      ((pie.max_memory = some m ∨ bootload.max_memory = some m ∨
          prove.max_memory = some m) ∧
        ∀ v : Nat, (pie.max_memory = some v ∨ bootload.max_memory = some v ∨
            prove.max_memory = some v) → v ≤ m)) ∧
    (maxMemoryAgg (run_prover pie bootload prove) = none ↔
      (pie.max_memory = none ∧ bootload.max_memory = none ∧
        prove.max_memory = none)) := by
  have hrun : run_prover pie bootload prove = [pie, bootload, prove] := by
    simp [run_prover, h1, h2]
  refine ⟨hrun, ?_, ?_, ?_⟩
  · rw [hrun]
    simp [totalElapsed]
    ring
  · intro m
    rw [hrun, maxMemoryAgg, List.max?_eq_some_iff']
    constructor
    · rintro ⟨hmem, hub⟩
      refine ⟨(mem_filterMap_three pie bootload prove m).mp hmem, ?_⟩
      intro v hv
      exact hub v ((mem_filterMap_three pie bootload prove v).mpr hv)
    · rintro ⟨hmem, hub⟩
      refine ⟨(mem_filterMap_three pie bootload prove m).mpr hmem, ?_⟩
      intro v hv
      exact hub v ((mem_filterMap_three pie bootload prove v).mp hv)
  · rw [hrun, maxMemoryAgg, List.max?_eq_none_iff, List.filterMap_eq_nil_iff]
    constructor
    · intro hall
      exact ⟨hall pie (by simp), hall bootload (by simp), hall prove (by simp)⟩
    · rintro ⟨ha, hb, hc⟩ x hx
      have hx3 : x = pie ∨ x = bootload ∨ x = prove := by simpa using hx
      rcases hx3 with rfl | rfl | rfl
      · exact ha
      · exact hb
      · exact hc

/-- C7 witness: a successful three-stage run with elapsed 1, 2, 3 and peak
memories 5, unknown, 7. -/
theorem aggregate_metrics_witness :
    (StepInfo.mk "PIE" "" "" 0 1 (some 5)).returncode = 0 ∧
    (StepInfo.mk "BOOTLOAD" "" "" 0 2 none).returncode = 0 ∧
    (StepInfo.mk "PROVE" "" "" 0 3 (some 7)).returncode = 0 ∧
    (run_prover (StepInfo.mk "PIE" "" "" 0 1 (some 5))
        (StepInfo.mk "BOOTLOAD" "" "" 0 2 none)
        (StepInfo.mk "PROVE" "" "" 0 3 (some 7)) =
      [StepInfo.mk "PIE" "" "" 0 1 (some 5),
        StepInfo.mk "BOOTLOAD" "" "" 0 2 none,
        StepInfo.mk "PROVE" "" "" 0 3 (some 7)] ∧
     totalElapsed (run_prover (StepInfo.mk "PIE" "" "" 0 1 (some 5))
        (StepInfo.mk "BOOTLOAD" "" "" 0 2 none)
        (StepInfo.mk "PROVE" "" "" 0 3 (some 7))) =
      (StepInfo.mk "PIE" "" "" 0 1 (some 5)).elapsed +
        (StepInfo.mk "BOOTLOAD" "" "" 0 2 none).elapsed +
        (StepInfo.mk "PROVE" "" "" 0 3 (some 7)).elapsed ∧
     (∀ m : Nat, maxMemoryAgg (run_prover (StepInfo.mk "PIE" "" "" 0 1 (some 5))
        (StepInfo.mk "BOOTLOAD" "" "" 0 2 none)
        (StepInfo.mk "PROVE" "" "" 0 3 (some 7))) = some m ↔
      (((StepInfo.mk "PIE" "" "" 0 1 (some 5)).max_memory = some m ∨
          (StepInfo.mk "BOOTLOAD" "" "" 0 2 none).max_memory = some m ∨
          (StepInfo.mk "PROVE" "" "" 0 3 (some 7)).max_memory = some m) ∧
        ∀ v : Nat, ((StepInfo.mk "PIE" "" "" 0 1 (some 5)).max_memory = some v ∨
            (StepInfo.mk "BOOTLOAD" "" "" 0 2 none).max_memory = some v ∨
            (StepInfo.mk "PROVE" "" "" 0 3 (some 7)).max_memory = some v) →
          v ≤ m)) ∧
     (maxMemoryAgg (run_prover (StepInfo.mk "PIE" "" "" 0 1 (some 5))
        (StepInfo.mk "BOOTLOAD" "" "" 0 2 none)
        (StepInfo.mk "PROVE" "" "" 0 3 (some 7))) = none ↔
      ((StepInfo.mk "PIE" "" "" 0 1 (some 5)).max_memory = none ∧
        (StepInfo.mk "BOOTLOAD" "" "" 0 2 none).max_memory = none ∧
        (StepInfo.mk "PROVE" "" "" 0 3 (some 7)).max_memory = none))) :=
  ⟨rfl, rfl, rfl,
    aggregate_metrics (StepInfo.mk "PIE" "" "" 0 1 (some 5))
      (StepInfo.mk "BOOTLOAD" "" "" 0 2 none)
      (StepInfo.mk "PROVE" "" "" 0 3 (some 7)) rfl rfl rfl⟩

lemma pyRange_ok_of_ne_zero (start stop step : Int) (hstep : step ≠ 0) :
    ∃ l, pyRange start stop step = Except.ok l := by
  rw [pyRange, if_neg hstep]
  split
  · exact ⟨_, rfl⟩
  · exact ⟨_, rfl⟩

/-- C8 counterexample: the claim states that the scheduler requires
step > 0 and start >= 0 before processing any height.  The source performs
no such validation: a run with start = -5 (and step = 5, blocks = 10)
starts jobs at heights -5 and 0 instead of rejecting the negative start,
and a negative step is accepted as well (yielding an empty downward range
rather than a validation error). -/
theorem main_validation_counterexample :
    mainRun (fun _ => true) (-5) 10 5 = Except.ok [-5, 0] ∧
    (-5 : Int) < 0 ∧
    mainRun (fun _ => true) 0 10 (-3) = Except.ok [] := by
  refine ⟨by rfl, by decide, by rfl⟩

/-- C8 amended: the scheduler performs no validation of its run parameters;
every step other than zero is accepted (as is any start, including negative
ones), and step = 0 fails only because the range constructor itself raises
ValueError before any height is processed. -/
theorem main_performs_no_validation (success : Int → Bool)
    (start blocks step : Int) (hstep : step ≠ 0) :
    (∃ started, mainRun success start blocks step = Except.ok started) ∧
    mainRun success start blocks 0 =
      Except.error "ValueError: range() arg 3 must not be zero" := by
  obtain ⟨l, hl⟩ := pyRange_ok_of_ne_zero start (start + blocks) step hstep
  constructor
  · refine ⟨runJobs success l, ?_⟩
    rw [mainRun, hl]
  · rw [mainRun]
    have h0 : pyRange start (start + blocks) 0 =
        Except.error "ValueError: range() arg 3 must not be zero" := by
      rw [pyRange, if_pos rfl]
    rw [h0]

/-- C8 witness: a concrete run with step 7. -/
theorem main_performs_no_validation_witness :
    (7 : Int) ≠ 0 ∧
    ((∃ started, mainRun (fun _ => true) 0 3 7 = Except.ok started) ∧
      mainRun (fun _ => true) 0 3 0 =
        Except.error "ValueError: range() arg 3 must not be zero") :=
  ⟨by decide, main_performs_no_validation (fun _ => true) 0 3 7 (by decide)⟩

lemma detectStep_ge (acc : Nat) (name : String) : acc ≤ detectStep acc name := by
  unfold detectStep
  rcases h : proofFilePattern name with _ | v
  · simp
  · simp only []
    split <;> omega

lemma foldl_detect_ge (files : List String) :
    ∀ acc, acc ≤ files.foldl detectStep acc := by
  induction files with
  | nil => intro acc; simp
  | cons n t ih =>
    intro acc
    rw [List.foldl_cons]
    exact le_trans (detectStep_ge acc n) (ih _)

lemma foldl_detect_bound (files : List String) :
    ∀ acc n, n ∈ files → ∀ h, proofFilePattern n = some h →
      h ≤ files.foldl detectStep acc := by
  induction files with
  | nil => intro acc n hn; exact absurd hn (List.not_mem_nil n)
  | cons m t ih =>
    intro acc n hn h hh
    rw [List.foldl_cons]
    rcases List.mem_cons.mp hn with rfl | hnt
    · have h1 : h ≤ detectStep acc n := by
        simp only [detectStep, hh]
        split <;> omega
      exact le_trans h1 (foldl_detect_ge t _)
    · exact ih _ n hnt h hh

lemma foldl_detect_attained (files : List String) :
    ∀ acc, files.foldl detectStep acc = acc ∨
      ∃ n ∈ files, proofFilePattern n = some (files.foldl detectStep acc) := by
  induction files with
  | nil => intro acc; left; rfl
  | cons m t ih =>
    intro acc
    rw [List.foldl_cons]
    rcases ih (detectStep acc m) with heq | ⟨n, hn, hp⟩
    · rw [heq]
      rcases h : proofFilePattern m with _ | v
      · left; simp [detectStep, h]
      · by_cases hlt : acc < v
        · right
          have hv : detectStep acc m = v := by simp [detectStep, h, hlt]
          exact ⟨m, by simp, by rw [h, hv]⟩
        · left; simp [detectStep, h, hlt]
    · right; exact ⟨n, by simp [hn], hp⟩

/-- C9: auto_detect_start returns an upper bound of every height carried by
a file of the proof store that passes the glob filter and matches the
naming pattern, its value is either 0 or a height actually carried by such
a file, and it is 0 when no file matches — a fresh store resumes exactly at
genesis. -/
theorem auto_detect_start_spec (files : List String) :
    (∀ n ∈ files, ∀ h, fileHeight n = some h → h ≤ auto_detect_start files) ∧
    (auto_detect_start files = 0 ∨
      ∃ n ∈ files, fileHeight n = some (auto_detect_start files)) ∧
    ((∀ n ∈ files, fileHeight n = none) → auto_detect_start files = 0) := by
  have key : auto_detect_start files =
      (files.filter globLight).foldl detectStep 0 := rfl
  refine ⟨?_, ?_, ?_⟩
  · intro n hn h hh
    rw [key]
    have hg : globLight n = true := by
      by_contra hng
      simp [fileHeight, hng] at hh
    have hp : proofFilePattern n = some h := by
      simpa [fileHeight, hg] using hh
    exact foldl_detect_bound _ 0 n (List.mem_filter.mpr ⟨hn, hg⟩) h hp
  · rw [key]
    rcases foldl_detect_attained (files.filter globLight) 0 with heq | ⟨n, hn, hp⟩
    · left; exact heq
    · right
      rcases List.mem_filter.mp hn with ⟨hnf, hg⟩
      exact ⟨n, hnf, by simp [fileHeight, hg, hp]⟩
  · intro hall
    rw [key]
    rcases foldl_detect_attained (files.filter globLight) 0 with heq | ⟨n, hn, hp⟩
    · exact heq
    · rcases List.mem_filter.mp hn with ⟨hnf, hg⟩
      have hnone := hall n hnf
      rw [fileHeight, if_pos hg] at hnone
      rw [hnone] at hp
      exact absurd hp (by simp)
